import Mathlib

/-!
# Verification of the strategy backtesting core

Shallow embedding of `src/strategy-interpreter.js` (class `StrategyInterpreter`)
and `src/strategy-library.js` (class `StrategyLibrary`), together with proofs
about the embedded definitions.

Conventions of the embedding:
* JS numbers are modelled by `ℚ`; where the code can produce `NaN` in a way a
  claim depends on (RSI's `0/0`), values are wrapped in `JSNum` which has an
  explicit `nan` constructor.
* A JS array slot that can hold `null` is modelled by `Option`: `none` is the
  `null` warm-up sentinel.  Reading past the end of an array (JS `undefined`)
  is modelled by `List.get?` returning `none` at the outer level.
* JS exceptions (the `TypeError` raised by `calculateEMA` on an empty series)
  are modelled by `Except String`.
* Buy/sell predicates reach the trading loop only through
  `evaluateCondition(cond, indicatorValues, i)`, whose result depends only on
  the bar index once the run's data and indicators are fixed; the loop is
  therefore parametrised by arbitrary functions `buy sell : ℕ → Bool`, which
  covers every strategy descriptor.
* The render-only marker lists (`buyMarkers` / `sellMarkers`) carry no
  simulation-relevant state and are not modelled.
-/

namespace Backtest

/-- One OHLCV bar, `{ time, open, high, low, close, volume }`. -/
structure Bar where
  time : ℤ
  open_ : ℚ
  high : ℚ
  low : ℚ
  close : ℚ
  volume : ℚ
deriving Repr, DecidableEq

/-- A JS number that may be `NaN`. -/
inductive JSNum where
  | nan : JSNum
  | num : ℚ → JSNum
deriving Repr, DecidableEq

/-- An indicator-array slot: `none` is the `null` warm-up sentinel. -/
abbrev JSVal := Option JSNum

/-- Trade action strings `'BUY'` / `'SELL'`. -/
inductive Action where
  | buy : Action
  | sell : Action
deriving Repr, DecidableEq

/-- A trade record.  `profit`/`profitPercent` are `none` on the records that do
not carry those fields (the BUY records in the source). -/
structure Trade where
  time : ℤ
  action : Action
  price : ℚ
  index : ℕ
  profit : Option ℚ
  profitPercent : Option ℚ
deriving Repr, DecidableEq

/-- `x || d` on JS numbers used as periods: `0` (and a missing field) falls
back to the default. -/
def jsOr (o : Option ℕ) (d : ℕ) : ℕ :=
  match o with
  | none => d
  | some 0 => d
  | some n => n

/-- `x || d` for the rational `stdDev` parameter. -/
def jsOrQ (o : Option ℚ) (d : ℚ) : ℚ :=
  match o with
  | none => d
  | some x => if x = 0 then d else x

/-- `indicators.macd` configuration object. -/
structure MacdSpec where
  fastPeriod : Option ℕ
  slowPeriod : Option ℕ
  signalPeriod : Option ℕ

/-- `indicators.rsi` configuration object. -/
structure RsiSpec where
  period : Option ℕ

/-- `indicators.bollinger` configuration object. -/
structure BollSpec where
  period : Option ℕ
  stdDev : Option ℚ

/-- `indicators.volume` configuration object. -/
structure VolSpec where
  period : Option ℕ

/-- The `indicators` field of a strategy descriptor; a missing sub-field is
`none`. -/
structure IndicatorSpec where
  sma : Option (List ℕ)
  ema : Option (List ℕ)
  rsi : Option RsiSpec
  macd : Option MacdSpec
  bollinger : Option BollSpec
  volume : Option VolSpec

/-- An `IndicatorSpec` with every sub-field absent. -/
def IndicatorSpec.none' : IndicatorSpec :=
  ⟨none, none, none, none, none, none⟩

/-- A buy/sell predicate: a native callable or a textual expression.  Only its
truthiness matters to `validateStrategy`; the callable's behaviour is opaque. -/
inductive Pred where
  | callable : (ℕ → Bool) → Pred
  | expr : String → Pred

/-- The `conditions` field of a strategy descriptor. -/
structure Conditions where
  buy : Option Pred
  sell : Option Pred

/-- A strategy descriptor as both classes see it; every field a JS object may
simply lack is an `Option`. -/
structure Strategy where
  name : Option String
  indicators : Option IndicatorSpec
  conditions : Option Conditions
  data : Option (List Bar)

/-! ## Indicator engine (`strategy-interpreter.js`, lines 306–407) -/

/-- `calculateSMA(period)`: `null` while `i < period - 1`, else the mean of the
trailing `period` closes.  (`i + 1 < period` is `i < period - 1` without
natural-number truncation.) -/
def calculateSMA (data : List Bar) (period : ℕ) : List (Option ℚ) :=
  (List.range data.length).map fun i =>
    if i + 1 < period then none
    else
      let sum := (((data.drop (i + 1 - period)).take period).map Bar.close).sum
      some (sum / (period : ℚ))

/-- The recursive step of `calculateEMA`: `ema[i] = close[i]*k + ema[i-1]*(1-k)`. -/
def emaAux (k : ℚ) (prev : ℚ) : List ℚ → List ℚ
  | [] => []
  | c :: cs =>
    let e := c * k + prev * (1 - k)
    e :: emaAux k e cs

/-- EMA over an arbitrary close series, seeded from its first element
(`ema[0] = close[0]`), with `k = 2/(period+1)`. -/
def emaOnCloses (period : ℕ) : List ℚ → List ℚ
  | [] => []
  | c :: cs => c :: emaAux (2 / (period + 1)) c cs

/-- `calculateEMA(period)`.  The JS method reads `this.data[0].close` before
the loop, so an empty series raises a `TypeError`, modelled as `.error`.
The method's parameter list has no data argument: a second argument passed by
a caller (as `calculateMACD` does for the signal line) is silently ignored and
the EMA is always computed over `this.data`. -/
def typeErrorMsg : String :=
  "TypeError: Cannot read properties of undefined (reading 'close')"

def calculateEMA (data : List Bar) (period : ℕ) : Except String (List ℚ) :=
  match data with
  | [] => .error typeErrorMsg
  | _ :: _ => .ok (emaOnCloses period (data.map Bar.close))

/-- The trailing-`period` average of the gain series ending at bar `i`
(the `gains.slice(i - period + 1, i + 1).reduce(..)/period` of the source). -/
def rsiAvgGain (data : List Bar) (period i : ℕ) : ℚ :=
  let closes := data.map Bar.close
  let changes := (closes.zip closes.tail).map fun p => p.2 - p.1
  let gains := changes.map fun c => if 0 < c then c else 0
  (((gains.drop (i + 1 - period)).take period).sum) / (period : ℚ)

/-- The trailing-`period` average of the loss series ending at bar `i`. -/
def rsiAvgLoss (data : List Bar) (period i : ℕ) : ℚ :=
  let closes := data.map Bar.close
  let changes := (closes.zip closes.tail).map fun p => p.2 - p.1
  let losses := changes.map fun c => if c < 0 then |c| else 0
  (((losses.drop (i + 1 - period)).take period).sum) / (period : ℚ)

/-- `calculateRSI(period)`: `null` while `i < period`; otherwise
`100 - 100/(1 + avgGain/avgLoss)` with IEEE semantics at `avgLoss = 0`:
`rs = avgGain/0` is `NaN` when `avgGain = 0` (so the RSI is `NaN`) and `+∞`
otherwise (so the RSI saturates to `100`). -/
def calculateRSI (data : List Bar) (period : ℕ) : List JSVal :=
  (List.range data.length).map fun i =>
    if i < period then none
    else
      let g := rsiAvgGain data period i
      let l := rsiAvgLoss data period i
      if l = 0 then
        if g = 0 then some .nan else some (.num 100)
      else some (.num (100 - 100 / (1 + g / l)))

/-- `calculateMACD(fast, slow, signal)`.  `macdLine` subtracts the two EMAs
pointwise; the signal line calls `calculateEMA(signalPeriod, ...)` — but
`calculateEMA` ignores its extra argument, so the signal is the EMA of the raw
close series, not of the MACD line.  Returns `(macd, signal, histogram)`. -/
def calculateMACD (data : List Bar) (fastPeriod slowPeriod signalPeriod : ℕ) :
    Except String (List ℚ × List ℚ × List ℚ) := do
  let fastEMA ← calculateEMA data fastPeriod
  let slowEMA ← calculateEMA data slowPeriod
  let macdLine := fastEMA.zipWith (fun f s => f - s) slowEMA
  let signalLine ← calculateEMA data signalPeriod
  let histogram := macdLine.zipWith (fun m s => m - s) signalLine
  return (macdLine, signalLine, histogram)

/-- `calculateBollingerBands(period, stdDev)`: returns `(upper, middle, lower)`
with `middle = SMA(period)` and population standard deviation of the trailing
window.  `Real.sqrt` of the variance is irrational in general; since no claim
depends on the numeric value of the bands, the square root is represented by
the variance itself scaled into the band offset shape used by the claims
(length and warm-up structure are preserved exactly). -/
def calculateBollingerBands (data : List Bar) (period : ℕ) (stdDev : ℚ) :
    List (Option ℚ) × List (Option ℚ) × List (Option ℚ) :=
  let sma := calculateSMA data period
  let band : Bool → List (Option ℚ) := fun up =>
    (List.range data.length).map fun i =>
      if i + 1 < period then none
      else
        let mean := (sma.get? i).join.getD 0
        let slice := (data.drop (i + 1 - period)).take period
        let variance := ((slice.map fun c => (c.close - mean) ^ 2).sum) / (period : ℚ)
        some (if up then mean + variance * stdDev else mean - variance * stdDev)
  (band true, sma, band false)

/-- `calculateVolumeSMA(period)`: the SMA formula over `volume` instead of
`close` (`candle.volume || 0` is the identity on a present rational volume). -/
def calculateVolumeSMA (data : List Bar) (period : ℕ) : List (Option ℚ) :=
  (List.range data.length).map fun i =>
    if i + 1 < period then none
    else
      let sum := (((data.drop (i + 1 - period)).take period).map Bar.volume).sum
      some (sum / (period : ℚ))

/-- Inject a `null`-or-number series into the common indicator-slot type. -/
def liftQ (l : List (Option ℚ)) : List JSVal := l.map (fun o => o.map .num)

/-- Inject an all-number series into the common indicator-slot type. -/
def liftE (l : List ℚ) : List JSVal := l.map (fun q => some (.num q))

/-- The EMA entries built by the `strategy.indicators.ema.forEach` loop; each
iteration calls `calculateEMA`, so the first one on an empty series throws. -/
def emaEntries (data : List Bar) : List ℕ → Except String (List (String × List JSVal))
  | [] => .ok []
  | p :: ps => do
    let e ← calculateEMA data p
    let rest ← emaEntries data ps
    return ("ema" ++ toString p, liftE e) :: rest

/-- `calculateIndicators(strategy)`: the keyed indicator mapping, in the
insertion order of the source (sma, ema, rsi, macd, bollinger, volume). -/
def calculateIndicators (s : Strategy) (data : List Bar) :
    Except String (List (String × List JSVal)) := do
  let ind := s.indicators
  let smaE := (match ind with
    | none => []
    | some i => (i.sma.getD []).map fun p =>
        ("sma" ++ toString p, liftQ (calculateSMA data p)))
  let emaE ← (match ind with
    | none => .ok []
    | some i => emaEntries data (i.ema.getD []))
  let rsiE := (match ind with
    | none => []
    | some i => match i.rsi with
      | none => []
      | some r => [("rsi", calculateRSI data (jsOr r.period 14))])
  let macdE ← (match ind with
    | none => .ok ([] : List (String × List JSVal))
    | some i => match i.macd with
      | none => .ok []
      | some cfg => do
          let res ← calculateMACD data (jsOr cfg.fastPeriod 12)
            (jsOr cfg.slowPeriod 26) (jsOr cfg.signalPeriod 9)
          return [("macd", liftE res.1), ("macdSignal", liftE res.2.1),
            ("macdHistogram", liftE res.2.2)])
  let bbE := (match ind with
    | none => []
    | some i => match i.bollinger with
      | none => []
      | some cfg =>
          let res := calculateBollingerBands data (jsOr cfg.period 20) (jsOrQ cfg.stdDev 2)
          [("bbUpper", liftQ res.1), ("bbMiddle", liftQ res.2.1),
           ("bbLower", liftQ res.2.2)])
  let volE := (match ind with
    | none => []
    | some i => match i.volume with
      | none => []
      | some cfg => [("volumeSMA", liftQ (calculateVolumeSMA data (jsOr cfg.period 20)))])
  return smaE ++ emaE ++ rsiE ++ macdE ++ bbE ++ volE

/-! ## Per-index context and start index (lines 180–234) -/

/-- `getIndicatorValues(index)`: a key is copied into the context whenever
`this.indicators[key][index] !== undefined`, i.e. whenever `index` is within
the array — a `null` warm-up slot passes this test and is copied as `null`. -/
def getIndicatorValues (indicators : List (String × List JSVal)) (index : ℕ) :
    List (String × JSVal) :=
  indicators.filterMap fun p => (p.2.get? index).map fun v => (p.1, v)

/-- The `periods` array assembled by `getStartIndex`: sma, ema, rsi and
bollinger requests push their periods; MACD and volume requests push
nothing. -/
def startPeriods (s : Strategy) : List ℕ :=
  match s.indicators with
  | none => []
  | some i =>
    i.sma.getD [] ++ i.ema.getD [] ++
    (match i.rsi with | none => [] | some r => [jsOr r.period 14]) ++
    (match i.bollinger with | none => [] | some b => [jsOr b.period 20])

/-- `getStartIndex(strategy)`: `Math.max(...periods, 0)`. -/
def getStartIndex (s : Strategy) : ℕ :=
  (startPeriods s).foldr max 0

/-! ## Expression substitution (`evaluateExpression`, lines 180–203) -/

/-- Scanner for `str.replace(new RegExp(pat, 'g'), rep)` on character lists:
every non-overlapping occurrence of `pat`, scanning left to right, is replaced
by `rep`.  The `skip` counter consumes the remaining characters of a match
that was just emitted, making the recursion structural in the text. -/
def replaceAllAux (pat rep : List Char) : ℕ → List Char → List Char
  | _, [] => []
  | skip + 1, _ :: cs => replaceAllAux pat rep skip cs
  | 0, c :: cs =>
    if !pat.isEmpty && pat.isPrefixOf (c :: cs) then
      rep ++ replaceAllAux pat rep (pat.length - 1) cs
    else
      c :: replaceAllAux pat rep 0 cs

/-- Global literal replacement, scanning from the start of the text. -/
def replaceAll (pat rep l : List Char) : List Char :=
  replaceAllAux pat rep 0 l

/-- `String.replace` with JS `replace(/pat/g, rep)` semantics. -/
def jsReplaceAll (s pat rep : String) : String :=
  ⟨replaceAll pat.data rep.data s.data⟩

/-- The substitution loop of `evaluateExpression`: for each context key, in
`Object.keys` insertion order, every occurrence of the key in the working
expression is replaced by the (stringified) context value.  No word-boundary
anchoring is applied. -/
def substituteAll (ctx : List (String × String)) (expr : String) : String :=
  ctx.foldl (fun e kv => jsReplaceAll e kv.1 kv.2) expr

/-! ## Trade simulator (`executeTradingLogic`, lines 110–167) -/

/-- The body of the simulation loop, recursing over the number of remaining
bar indices.  State: `inPosition` and `entryPrice` (initially `false` / `0`).
The bar at index `i` is always in range when called from
`executeTradingLogic`. -/
def tradingAux (data : List Bar) (buy sell : ℕ → Bool) :
    Bool → ℚ → ℕ → ℕ → List Trade
  | _, _, _, 0 => []
  | inPosition, entryPrice, i, n + 1 =>
    let bar := data.getD i ⟨0, 0, 0, 0, 0, 0⟩
    if !inPosition && buy i then
      { time := bar.time, action := .buy, price := bar.close, index := i,
        profit := none, profitPercent := none } ::
        tradingAux data buy sell true bar.close (i + 1) n
    else if inPosition && sell i then
      { time := bar.time, action := .sell, price := bar.close, index := i,
        profit := some (bar.close - entryPrice),
        profitPercent := some ((bar.close - entryPrice) / entryPrice * 100) } ::
        tradingAux data buy sell false entryPrice (i + 1) n
    else
      tradingAux data buy sell inPosition entryPrice (i + 1) n

/-- `executeTradingLogic(strategy)`: walk indices from `getStartIndex` to the
end of the series with the flat/long state machine, producing the trade log.
`buy` and `sell` are the values of `evaluateCondition` on the strategy's
buy/sell predicates at each index. -/
def executeTradingLogic (data : List Bar) (buy sell : ℕ → Bool)
    (startIndex : ℕ) : List Trade :=
  tradingAux data buy sell false 0 startIndex (data.length - startIndex)

/-! ## Statistics (`calculateStatistics`, lines 237–294) -/

/-- The final report of `calculateStatistics`. -/
structure Stats where
  totalTrades : ℕ
  buyTrades : ℕ
  sellTrades : ℕ
  wins : ℕ
  losses : ℕ
  totalProfit : ℚ
  totalProfitPercent : ℚ
  maxDrawdown : ℚ
  winRate : ℚ
  avgWin : ℚ
  avgLoss : ℚ
deriving Repr, DecidableEq

/-- The consecutive pairs `(trades[i-1], trades[i])` visited by the statistics
loop (`i = 1, 3, 5, ...`); a trailing unmatched trade is ignored. -/
def tradePairs : List Trade → List (Trade × Trade)
  | a :: b :: rest => (a, b) :: tradePairs rest
  | _ => []

/-- The running accumulator of the statistics loop. -/
structure StatsAcc where
  wins : ℕ
  losses : ℕ
  winSum : ℚ
  lossSum : ℚ
  totalProfit : ℚ
  totalPct : ℚ
  peak : ℚ
  maxDD : ℚ
deriving Repr, DecidableEq

/-- One iteration of the statistics loop over a `(buy, sell)` pair, guarded by
`buy.action === 'BUY' && sell.action === 'SELL'`. -/
def statsStep (acc : StatsAcc) (p : Trade × Trade) : StatsAcc :=
  if p.1.action = .buy ∧ p.2.action = .sell then
    let profit := p.2.price - p.1.price
    let pct := (p.2.price - p.1.price) / p.1.price * 100
    let totalProfit := acc.totalProfit + profit
    let totalPct := acc.totalPct + pct
    let wins := if 0 < profit then acc.wins + 1 else acc.wins
    let winSum := if 0 < profit then acc.winSum + profit else acc.winSum
    let losses := if 0 < profit then acc.losses else acc.losses + 1
    let lossSum := if 0 < profit then acc.lossSum else acc.lossSum + |profit|
    let peak := if acc.peak < totalProfit then totalProfit else acc.peak
    let dd := peak - totalProfit
    let maxDD := if acc.maxDD < dd then dd else acc.maxDD
    ⟨wins, losses, winSum, lossSum, totalProfit, totalPct, peak, maxDD⟩
  else acc

/-- `calculateStatistics()`: fold the pair loop, then fill in the derived
ratio fields (`winRate`, `avgWin`, `avgLoss`) with their zero-count
fallbacks. -/
def calculateStatistics (trades : List Trade) : Stats :=
  let acc := (tradePairs trades).foldl statsStep ⟨0, 0, 0, 0, 0, 0, 0, 0⟩
  { totalTrades := trades.length
    buyTrades := (trades.filter fun t => t.action = .buy).length
    sellTrades := (trades.filter fun t => t.action = .sell).length
    wins := acc.wins
    losses := acc.losses
    totalProfit := acc.totalProfit
    totalProfitPercent := acc.totalPct
    maxDrawdown := acc.maxDD
    winRate := if 0 < acc.wins + acc.losses then
        ((acc.wins : ℚ) / ((acc.wins : ℚ) + (acc.losses : ℚ))) * 100 else 0
    avgWin := if 0 < acc.wins then acc.winSum / (acc.wins : ℚ) else 0
    avgLoss := if 0 < acc.losses then acc.lossSum / (acc.losses : ℚ) else 0 }

/-! ## Run driver (`executeStrategy`, lines 34–54) -/

/-- The result object of a run (markers omitted, see the header). -/
structure StratResult where
  trades : List Trade
  stats : Stats
  strategyName : String

/-- `executeStrategy(strategy)`: reset, compute indicators, simulate, reduce
to statistics.  An exception anywhere (the empty-series EMA `TypeError`)
propagates to the caller. -/
def executeStrategy (s : Strategy) (buy sell : ℕ → Bool) :
    Except String StratResult := do
  let data := s.data.getD []
  let _indicators ← calculateIndicators s data
  let trades := executeTradingLogic data buy sell (getStartIndex s)
  let stats := calculateStatistics trades
  return { trades := trades, stats := stats,
           strategyName := match s.name with
             | none => "Custom Strategy"
             | some n => if n = "" then "Custom Strategy" else n }

/-! ## Validation (`strategy-library.js`, `validateStrategy`, lines 229–242) -/

/-- JS truthiness of the `name` field: absent and `""` are falsy. -/
def nameTruthy : Option String → Bool
  | none => false
  | some s => !s.isEmpty

/-- JS truthiness of a predicate slot: absent is falsy, a function is truthy,
a string expression is truthy unless empty. -/
def predTruthy : Option Pred → Bool
  | none => false
  | some (.callable _) => true
  | some (.expr e) => !e.isEmpty

/-- `required.filter(field => !strategy[field])` for
`['name', 'indicators', 'conditions']` (objects are always truthy when
present). -/
def missingFields (s : Strategy) : List String :=
  (if nameTruthy s.name then [] else ["name"]) ++
  (if s.indicators.isSome then [] else ["indicators"]) ++
  (if s.conditions.isSome then [] else ["conditions"])

/-- `validateStrategy(strategy)`: throw listing the missing required fields,
else throw when `conditions.buy`/`conditions.sell` is falsy, else return
`true`.  (The `none` branch of the inner match is unreachable: an absent
`conditions` is already in `missingFields`.) -/
def validateStrategy (s : Strategy) : Except String Bool :=
  if missingFields s ≠ [] then
    .error ("Missing required fields: " ++ String.intercalate ", " (missingFields s))
  else
    match s.conditions with
    | some c =>
        if predTruthy c.buy && predTruthy c.sell then .ok true
        else .error "Strategy must have both buy and sell conditions"
    | none => .error "Strategy must have both buy and sell conditions"

/-- Whether the descriptor makes `calculateIndicators` call `calculateEMA`:
a non-empty `ema` period list (an empty list is truthy in JS but its
`forEach` body never runs) or any `macd` request. -/
def requestsEmaOrMacd (s : Strategy) : Bool :=
  match s.indicators with
  | none => false
  | some i => !(i.ema.getD []).isEmpty || i.macd.isSome

/-! ## Spec-modelled reference definitions -/

/-- Modelled from the spec: `signalLine = EMA(signal)` applied to the macd
line "treated as a close-price series" — this is `emaOnCloses` on the macd
values, the computation `calculateMACD` attempts to request by passing
`macdLine.map(val => ({close: val}))` as a (silently dropped) second argument
to `calculateEMA`. -/
def specSignalLine (signalPeriod : ℕ) (macdLine : List ℚ) : List ℚ :=
  emaOnCloses signalPeriod macdLine

/-- Modelled from the spec: "the maximum warm-up period across all indicators
requested in the descriptor (including MACD and volume-SMA requests), or 0
when no indicator is requested". -/
def specStartIndex (s : Strategy) : ℕ :=
  let extra : List ℕ :=
    match s.indicators with
    | none => []
    | some i =>
      (match i.macd with
        | none => []
        | some m => [jsOr m.fastPeriod 12, jsOr m.slowPeriod 26, jsOr m.signalPeriod 9]) ++
      (match i.volume with
        | none => []
        | some v => [jsOr v.period 20])
  (startPeriods s ++ extra).foldr max 0

/-! ## Concrete test fixtures -/

/-- A flat test bar at price `c`. -/
def bar (t : ℤ) (c : ℚ) : Bar := ⟨t, c, c, c, c, 0⟩

/-- Three bars with closes 1, 2, 3. -/
def data3 : List Bar := [bar 0 1, bar 1 2, bar 2 3]

/-- The flat bar series used for the RSI scenario. -/
def flatBars (n : ℕ) (c : ℚ) : List Bar := List.replicate n (bar 0 c)

/-- The action expected after `a`. -/
def Action.next : Action → Action
  | .buy => .sell
  | .sell => .buy

/-- `alternatesFrom a ts`: the actions of `ts` are `a, a.next, a.next.next, …`
— strict BUY/SELL alternation beginning with `a`. -/
def alternatesFrom : Action → List Trade → Bool
  | _, [] => true
  | a, t :: ts => t.action == a && alternatesFrom a.next ts

/-- Full state-machine invariant of a trade-log suffix.  The state is the open
position: `none` = flat (next trade, if any, is a BUY carrying no profit
fields), `some e` = long with entry price `e` (next trade, if any, is a SELL
whose profit fields are computed against `e`). -/
def posOk : Option ℚ → List Trade → Prop
  | _, [] => True
  | none, t :: ts =>
      t.action = .buy ∧ t.profit = none ∧ t.profitPercent = none ∧
      posOk (some t.price) ts
  | some e, t :: ts =>
      t.action = .sell ∧ t.profit = some (t.price - e) ∧
      t.profitPercent = some ((t.price - e) / e * 100) ∧ posOk none ts

/-- The realized profit of a `(buy, sell)` pair. -/
def pairProfit (p : Trade × Trade) : ℚ := p.2.price - p.1.price

/-- An alternating test log with an unmatched trailing BUY
(the spec's Scenario D shape: BUY@100, SELL@110, BUY@95). -/
def wTrades : List Trade :=
  [⟨0, .buy, 100, 10, none, none⟩,
   ⟨1, .sell, 110, 11, some 10, some 10⟩,
   ⟨2, .buy, 95, 12, none, none⟩]

/-- The descriptor with its MACD and volume requests removed. -/
def stripMacdVolume (s : Strategy) : Strategy :=
  { s with indicators := s.indicators.map fun i => { i with macd := none, volume := none } }

/-- A descriptor requesting only MACD (with default periods). -/
def macdOnlyStrategy : Strategy :=
  ⟨some "MACD Crossover",
   some { IndicatorSpec.none' with macd := some ⟨none, none, none⟩ },
   none, none⟩

/-- A descriptor whose `name` is present but the empty string, with valid
indicators and both conditions. -/
def emptyNameStrategy : Strategy :=
  ⟨some "", some IndicatorSpec.none',
   some ⟨some (.expr "price > 0"), some (.expr "price < 0")⟩, none⟩

/-- A dataless descriptor requesting one EMA. -/
def emaOnlyStrategy : Strategy :=
  ⟨some "EMA", some { IndicatorSpec.none' with ema := some [10] }, none, none⟩

/-- A dataless descriptor requesting SMA and RSI only. -/
def smaRsiStrategy : Strategy :=
  ⟨some "SMA+RSI",
   some { IndicatorSpec.none' with sma := some [10], rsi := some ⟨some 14⟩ },
   none, none⟩

/-! ## Theorems -/

/-- **C1.**  `calculateMACD` does **not** compute the signal line as the EMA of
the macd line.  On closes `[1, 2, 3]` with parameters `(fast, slow, signal) =
(1, 2, 1)`, the macd line is `[0, 1/3, 4/9]`, so the spec's signal line
(`EMA(1)` over the macd line) is `[0, 1/3, 4/9]` itself; but the code's signal
line is `EMA(1)` of the raw close series, `[1, 2, 3]`, because `calculateEMA`
ignores the series argument `calculateMACD` passes it.  The histogram is the
macd line minus that wrong signal line. -/
theorem macd_signal_uses_raw_closes :
    calculateMACD data3 1 2 1 =
      .ok ([0, 1/3, 4/9], [1, 2, 3], [-1, -5/3, -23/9]) ∧
    specSignalLine 1 [0, 1/3, 4/9] = [0, 1/3, 4/9] ∧
    ([1, 2, 3] : List ℚ) ≠ [0, 1/3, 4/9] := by
  refine ⟨?_, ?_, ?_⟩
  · simp only [calculateMACD, calculateEMA, data3, bar, emaOnCloses, emaAux,
      List.map, Except.bind, bind, pure, Except.pure]
    norm_num
  · simp only [specSignalLine, emaOnCloses, emaAux]
    norm_num
  · intro h
    have := List.head_eq_of_cons_eq h
    norm_num at this

/-- **C2.**  The substitution loop of `evaluateExpression` is **not**
identifier-boundary safe.  With indicator keys `sma5` and `sma50` (insertion
order of `strategy.indicators.sma = [5, 50]`) holding values `0` and `3`, and
the current close being `2`, the expression `"sma50 > price"` is rewritten to
`"00 > 2"`: the `sma5 → 0` pass corrupts the `sma50` occurrence, whereas
whole-identifier substitution would produce `"3 > 2"`. -/
theorem substitution_corrupts_longer_key :
    substituteAll [("sma5", "0"), ("sma50", "3"), ("price", "2")]
      "sma50 > price" = "00 > 2" ∧
    ("00 > 2" : String) ≠ "3 > 2" := by
  constructor
  · decide
  · decide

/-- **C3 (counterexample).**  A warm-up-sentinel value is **not** omitted from
the per-index context: for `sma3` over the three-bar series at index `0`
(before warm-up, so the series slot is `null`), `getIndicatorValues` still
produces an entry for `sma3`, bound to the sentinel itself. -/
theorem context_contains_null_sentinel :
    getIndicatorValues [("sma3", liftQ (calculateSMA data3 3))] 0 =
      [("sma3", (none : JSVal))] := by
  decide

/-- **C3 (amended).**  The context built by `getIndicatorValues(i)` contains
the entry `(k, v)` iff the indicator series stored under `k` has index `i` in
range with slot value `v` — the JS test is `!== undefined`, so a `null`
warm-up slot is passed into the context as `null` rather than omitted. -/
theorem getIndicatorValues_mem_iff
    (indicators : List (String × List JSVal)) (i : ℕ) (k : String) (v : JSVal) :
    (k, v) ∈ getIndicatorValues indicators i ↔
      ∃ ser, (k, ser) ∈ indicators ∧ ser.get? i = some v := by
  simp only [getIndicatorValues, List.mem_filterMap, Option.map_eq_some']
  constructor
  · rintro ⟨⟨k', ser⟩, hmem, w, hw, heq⟩
    cases heq
    exact ⟨ser, hmem, hw⟩
  · rintro ⟨ser, hmem, hw⟩
    exact ⟨(k, ser), hmem, v, hw, rfl⟩

/-- On a flat series every average gain is zero. -/
theorem rsiAvgGain_flat (n period i : ℕ) (c : ℚ) :
    rsiAvgGain (flatBars n c) period i = 0 := by
  simp only [rsiAvgGain, flatBars]
  have hz : ∀ x ∈ ((((List.replicate n (bar 0 c)).map Bar.close).zip
      ((List.replicate n (bar 0 c)).map Bar.close).tail).map
        (fun p => p.2 - p.1)).map (fun q => if 0 < q then q else 0), x = 0 := by
    intro x hx
    simp only [List.mem_map] at hx
    obtain ⟨q, hq, rfl⟩ := hx
    obtain ⟨⟨a, b⟩, hp, rfl⟩ := hq
    have ha : a ∈ (List.replicate n (bar 0 c)).map Bar.close := (List.of_mem_zip hp).1
    have hb : b ∈ ((List.replicate n (bar 0 c)).map Bar.close).tail := (List.of_mem_zip hp).2
    rw [List.map_replicate] at ha hb
    rw [List.tail_replicate] at hb
    have ha' := List.eq_of_mem_replicate ha
    have hb' := List.eq_of_mem_replicate hb
    subst ha' hb'
    simp [bar]
  have : ∀ x ∈ (((((List.replicate n (bar 0 c)).map Bar.close).zip
      ((List.replicate n (bar 0 c)).map Bar.close).tail).map
        (fun p => p.2 - p.1)).map (fun q => if 0 < q then q else 0)).drop
          (i + 1 - period) |>.take period, x = 0 := by
    intro x hx
    exact hz x (List.mem_of_mem_drop (List.mem_of_mem_take hx))
  rw [List.sum_eq_zero this]
  simp

/-- On a flat series every average loss is zero. -/
theorem rsiAvgLoss_flat (n period i : ℕ) (c : ℚ) :
    rsiAvgLoss (flatBars n c) period i = 0 := by
  simp only [rsiAvgLoss, flatBars]
  have hz : ∀ x ∈ ((((List.replicate n (bar 0 c)).map Bar.close).zip
      ((List.replicate n (bar 0 c)).map Bar.close).tail).map
        (fun p => p.2 - p.1)).map (fun q => if q < 0 then |q| else 0), x = 0 := by
    intro x hx
    simp only [List.mem_map] at hx
    obtain ⟨q, hq, rfl⟩ := hx
    obtain ⟨⟨a, b⟩, hp, rfl⟩ := hq
    have ha : a ∈ (List.replicate n (bar 0 c)).map Bar.close := (List.of_mem_zip hp).1
    have hb : b ∈ ((List.replicate n (bar 0 c)).map Bar.close).tail := (List.of_mem_zip hp).2
    rw [List.map_replicate] at ha hb
    rw [List.tail_replicate] at hb
    have ha' := List.eq_of_mem_replicate ha
    have hb' := List.eq_of_mem_replicate hb
    subst ha' hb'
    simp [bar]
  have : ∀ x ∈ (((((List.replicate n (bar 0 c)).map Bar.close).zip
      ((List.replicate n (bar 0 c)).map Bar.close).tail).map
        (fun p => p.2 - p.1)).map (fun q => if q < 0 then |q| else 0)).drop
          (i + 1 - period) |>.take period, x = 0 := by
    intro x hx
    exact hz x (List.mem_of_mem_drop (List.mem_of_mem_take hx))
  rw [List.sum_eq_zero this]
  simp

/-- **C5.**  On a flat price series the average gain and average loss at every
post-warm-up index are `0` — but the RSI there is `NaN` (JS computes
`rs = 0/0 = NaN`), not the defined value `50` the 0/0 ↦ RS=1 policy would
give. -/
theorem flat_rsi_is_nan (n period i : ℕ) (c : ℚ)
    (hpi : period ≤ i) (hin : i < n) :
    rsiAvgGain (flatBars n c) period i = 0 ∧
    rsiAvgLoss (flatBars n c) period i = 0 ∧
    (calculateRSI (flatBars n c) period).get? i = some (some JSNum.nan) ∧
    (some (some JSNum.nan) : Option JSVal) ≠ some (some (JSNum.num 50)) := by
  refine ⟨rsiAvgGain_flat n period i c, rsiAvgLoss_flat n period i c, ?_, by simp⟩
  have hlen : i < (flatBars n c).length := by
    simp [flatBars, hin]
  rw [calculateRSI, List.get?_map, List.get?_range (by simpa [flatBars] using hlen)]
  simp only [Option.map_some']
  rw [if_neg (by omega)]
  rw [rsiAvgGain_flat n period i c, rsiAvgLoss_flat n period i c]
  simp

/-- **C5 (witness).**  The scenario of the spec: 15 bars, all closes 50,
RSI(14), index 14. -/
theorem flat_rsi_is_nan_witness :
    rsiAvgGain (flatBars 15 50) 14 14 = 0 ∧
    rsiAvgLoss (flatBars 15 50) 14 14 = 0 ∧
    (calculateRSI (flatBars 15 50) 14).get? 14 = some (some JSNum.nan) ∧
    (some (some JSNum.nan) : Option JSVal) ≠ some (some (JSNum.num 50)) :=
  flat_rsi_is_nan 15 14 14 50 (by decide) (by decide)

/-! ## The state-machine invariant of the trading loop -/

/-- The trading loop establishes the state-machine invariant, whatever the
predicates do. -/
theorem tradingAux_posOk (data : List Bar) (buy sell : ℕ → Bool) :
    ∀ (n : ℕ) (inPosition : Bool) (entryPrice : ℚ) (i : ℕ),
      posOk (if inPosition then some entryPrice else none)
        (tradingAux data buy sell inPosition entryPrice i n) := by
  intro n
  induction n with
  | zero => intro inPosition entryPrice i; simp [tradingAux, posOk]
  | succ n ih =>
    intro inPosition entryPrice i
    cases inPosition with
    | false =>
      by_cases hb : buy i = true
      · simp only [tradingAux, hb, Bool.not_false, Bool.true_and, if_true]
        refine ⟨rfl, rfl, rfl, ?_⟩
        simpa using ih true ((data.getD i ⟨0, 0, 0, 0, 0, 0⟩).close) (i + 1)
      · simp only [tradingAux, hb, Bool.not_false, Bool.true_and, if_false,
          Bool.false_and]
        simpa using ih false entryPrice (i + 1)
    | true =>
      by_cases hs : sell i = true
      · simp only [tradingAux, hs, Bool.not_true, Bool.false_and, if_false,
          Bool.true_and, if_true]
        refine ⟨rfl, rfl, rfl, ?_⟩
        simpa using ih false entryPrice (i + 1)
      · simp only [tradingAux, hs, Bool.not_true, Bool.false_and, if_false,
          Bool.true_and]
        simpa using ih true entryPrice (i + 1)

/-- The state-machine invariant entails strict alternation, starting with BUY
from the flat state and with SELL from the long state. -/
theorem posOk_alternates :
    ∀ (ts : List Trade) (st : Option ℚ), posOk st ts →
      alternatesFrom (match st with | none => .buy | some _ => .sell) ts = true := by
  intro ts
  induction ts with
  | nil => intro st _; cases st <;> simp [alternatesFrom]
  | cons t ts ih =>
    intro st h
    cases st with
    | none =>
      obtain ⟨ha, -, -, hrest⟩ := h
      have := ih (some t.price) hrest
      simp [alternatesFrom, ha, Action.next, this]
    | some e =>
      obtain ⟨ha, -, -, hrest⟩ := h
      have := ih none hrest
      simp [alternatesFrom, ha, Action.next, this]

/-- Every trade the loop emits from index `i` onward has index at least `i`. -/
theorem tradingAux_index_ge (data : List Bar) (buy sell : ℕ → Bool) :
    ∀ (n : ℕ) (inPosition : Bool) (entryPrice : ℚ) (i : ℕ),
      ∀ t ∈ tradingAux data buy sell inPosition entryPrice i n, i ≤ t.index := by
  intro n
  induction n with
  | zero => intro inPosition entryPrice i t ht; simp [tradingAux] at ht
  | succ n ih =>
    intro inPosition entryPrice i t ht
    rw [tradingAux] at ht
    split at ht
    · rcases List.mem_cons.mp ht with h | h
      · subst h; exact le_refl _
      · exact le_of_lt (Nat.lt_of_lt_of_le (Nat.lt_succ_self i) (ih _ _ _ t h))
    · split at ht
      · rcases List.mem_cons.mp ht with h | h
        · subst h; exact le_refl _
        · exact le_of_lt (Nat.lt_of_lt_of_le (Nat.lt_succ_self i) (ih _ _ _ t h))
      · exact le_of_lt (Nat.lt_of_lt_of_le (Nat.lt_succ_self i) (ih _ _ _ t ht))

/-- Trade indices are strictly increasing along the log. -/
theorem tradingAux_index_sorted (data : List Bar) (buy sell : ℕ → Bool) :
    ∀ (n : ℕ) (inPosition : Bool) (entryPrice : ℚ) (i : ℕ),
      (tradingAux data buy sell inPosition entryPrice i n).Pairwise
        (fun a b => a.index < b.index) := by
  intro n
  induction n with
  | zero => intro inPosition entryPrice i; simp [tradingAux]
  | succ n ih =>
    intro inPosition entryPrice i
    rw [tradingAux]
    split
    · refine List.pairwise_cons.mpr ⟨?_, ih _ _ _⟩
      intro t ht
      exact Nat.lt_of_lt_of_le (Nat.lt_succ_self i)
        (tradingAux_index_ge data buy sell n _ _ _ t ht)
    · split
      · refine List.pairwise_cons.mpr ⟨?_, ih _ _ _⟩
        intro t ht
        exact Nat.lt_of_lt_of_le (Nat.lt_succ_self i)
          (tradingAux_index_ge data buy sell n _ _ _ t ht)
      · exact ih _ _ _

/-- **C6.**  Every simulated trade log strictly alternates actions starting
with a BUY (`alternatesFrom .buy` forces the first trade, if any, to be a BUY
and consecutive trades to differ), and trade indices are strictly increasing,
so at most one trade is emitted per bar index. -/
theorem trade_log_alternates (data : List Bar) (buy sell : ℕ → Bool)
    (startIndex : ℕ) :
    alternatesFrom .buy (executeTradingLogic data buy sell startIndex) = true ∧
    (executeTradingLogic data buy sell startIndex).Pairwise
      (fun a b => a.index < b.index) := by
  constructor
  · have h := tradingAux_posOk data buy sell (data.length - startIndex) false 0 startIndex
    simpa using posOk_alternates _ none (by simpa using h)
  · exact tradingAux_index_sorted data buy sell _ _ _ _

/-- Under the state-machine invariant, BUY trades carry no profit fields. -/
theorem posOk_buy_no_profit :
    ∀ (ts : List Trade) (st : Option ℚ), posOk st ts →
      ∀ t ∈ ts, t.action = .buy → t.profit = none ∧ t.profitPercent = none := by
  intro ts
  induction ts with
  | nil => intro st _ t ht; simp at ht
  | cons u ts ih =>
    intro st h t ht
    rcases List.mem_cons.mp ht with rfl | hmem
    · cases st with
      | none => exact fun _ => ⟨h.2.1, h.2.2.1⟩
      | some e => intro hb; rw [h.1] at hb; cases hb
    · cases st with
      | none => exact ih (some u.price) h.2.2.2 t hmem
      | some e => exact ih none h.2.2.2 t hmem

/-- Under the state-machine invariant, SELL trades always carry both profit
fields. -/
theorem posOk_sell_has_profit :
    ∀ (ts : List Trade) (st : Option ℚ), posOk st ts →
      ∀ t ∈ ts, t.action = .sell →
        t.profit.isSome = true ∧ t.profitPercent.isSome = true := by
  intro ts
  induction ts with
  | nil => intro st _ t ht; simp at ht
  | cons u ts ih =>
    intro st h t ht
    rcases List.mem_cons.mp ht with rfl | hmem
    · cases st with
      | none => intro hs; rw [h.1] at hs; cases hs
      | some e => exact fun _ => by simp [h.2.1, h.2.2.1]
    · cases st with
      | none => exact ih (some u.price) h.2.2.2 t hmem
      | some e => exact ih none h.2.2.2 t hmem

/-- Under the state-machine invariant, a SELL's profit fields are computed
against the immediately preceding trade — the most recent BUY. -/
theorem posOk_chain :
    ∀ (ts : List Trade) (st : Option ℚ), posOk st ts →
      List.Chain' (fun a b => b.action = .sell →
        a.action = .buy ∧ b.profit = some (b.price - a.price) ∧
        b.profitPercent = some ((b.price - a.price) / a.price * 100)) ts := by
  intro ts
  induction ts with
  | nil => intro st _; simp
  | cons u ts ih =>
    intro st h
    cases st with
    | none =>
      refine List.chain'_cons'.mpr ⟨?_, ih (some u.price) h.2.2.2⟩
      intro b hb _
      cases ts with
      | nil => simp at hb
      | cons v ts' =>
        have hv : v = b := by simpa using hb
        subst hv
        have hrest := h.2.2.2
        exact ⟨h.1, hrest.2.1, hrest.2.2.1⟩
    | some e =>
      refine List.chain'_cons'.mpr ⟨?_, ih none h.2.2.2⟩
      intro b hb hbs
      cases ts with
      | nil => simp at hb
      | cons v ts' =>
        have hv : v = b := by simpa using hb
        have hbuy : v.action = .buy := (h.2.2.2 : posOk none (v :: ts')).1
        rw [hv, hbs] at hbuy
        cases hbuy

/-- **C7.**  In every simulated trade log: the first trade (if any) is a BUY;
each SELL's `profit` is its price minus the immediately preceding trade's
price — by alternation, the most recent BUY — and `profitPercent` is
`profit / buyPrice * 100`; BUY trades never carry profit fields, and SELL
trades always do. -/
theorem sell_profit_fields (data : List Bar) (buy sell : ℕ → Bool)
    (startIndex : ℕ) :
    (∀ t, (executeTradingLogic data buy sell startIndex).head? = some t →
      t.action = .buy) ∧
    List.Chain' (fun a b => b.action = .sell →
      a.action = .buy ∧ b.profit = some (b.price - a.price) ∧
      b.profitPercent = some ((b.price - a.price) / a.price * 100))
      (executeTradingLogic data buy sell startIndex) ∧
    (∀ t ∈ executeTradingLogic data buy sell startIndex,
      t.action = .buy → t.profit = none ∧ t.profitPercent = none) ∧
    (∀ t ∈ executeTradingLogic data buy sell startIndex,
      t.action = .sell →
        t.profit.isSome = true ∧ t.profitPercent.isSome = true) := by
  have h : posOk none (executeTradingLogic data buy sell startIndex) := by
    simpa using tradingAux_posOk data buy sell (data.length - startIndex)
      false 0 startIndex
  refine ⟨?_, posOk_chain _ none h, posOk_buy_no_profit _ none h,
    posOk_sell_has_profit _ none h⟩
  intro t ht
  cases hts : executeTradingLogic data buy sell startIndex with
  | nil => rw [hts] at ht; cases ht
  | cons u ts =>
    rw [hts] at ht h
    have : u = t := by simpa using ht
    subst this
    exact h.1

/-! ## Statistics lemmas -/

/-- The statistics loop visits `⌊trades.length / 2⌋` pairs. -/
theorem tradePairs_length : ∀ l : List Trade, (tradePairs l).length = l.length / 2
  | [] => by simp [tradePairs]
  | [_] => by simp [tradePairs]
  | _ :: b :: rest => by
    simp only [tradePairs, List.length_cons, tradePairs_length rest]
    omega

/-- In an alternating log starting with BUY, every visited pair passes the
`buy.action === 'BUY' && sell.action === 'SELL'` guard. -/
theorem alternates_pairs : ∀ l : List Trade, alternatesFrom .buy l = true →
    ∀ p ∈ tradePairs l, p.1.action = .buy ∧ p.2.action = .sell
  | [], _, p, hp => by simp [tradePairs] at hp
  | [_], _, p, hp => by simp [tradePairs] at hp
  | a :: b :: rest, h, p, hp => by
    simp only [alternatesFrom, Action.next, Bool.and_eq_true, beq_iff_eq] at h
    rcases List.mem_cons.mp hp with rfl | hmem
    · exact ⟨h.1, h.2.1⟩
    · exact alternates_pairs rest h.2.2 p hmem

/-- `wins` counts the pairs with positive profit. -/
theorem foldl_statsStep_wins :
    ∀ (ps : List (Trade × Trade)) (acc : StatsAcc),
      (∀ p ∈ ps, p.1.action = .buy ∧ p.2.action = .sell) →
      (ps.foldl statsStep acc).wins =
        acc.wins + ps.countP (fun p => decide (0 < pairProfit p))
  | [], acc, _ => by simp
  | p :: ps, acc, h => by
    have hg := h p (List.mem_cons_self p ps)
    have ih := foldl_statsStep_wins ps (statsStep acc p)
      (fun q hq => h q (List.mem_cons_of_mem _ hq))
    rw [List.foldl_cons, ih, List.countP_cons]
    simp only [statsStep, if_pos hg, pairProfit]
    by_cases hp : 0 < p.2.price - p.1.price
    · simp only [if_pos hp, decide_eq_true_eq, hp]
      simp
      all_goals omega
    · simp only [if_neg hp, decide_eq_true_eq]
      simp [hp]

/-- `losses` counts the pairs with non-positive profit. -/
theorem foldl_statsStep_losses :
    ∀ (ps : List (Trade × Trade)) (acc : StatsAcc),
      (∀ p ∈ ps, p.1.action = .buy ∧ p.2.action = .sell) →
      (ps.foldl statsStep acc).losses =
        acc.losses + ps.countP (fun p => !decide (0 < pairProfit p))
  | [], acc, _ => by simp
  | p :: ps, acc, h => by
    have hg := h p (List.mem_cons_self p ps)
    have ih := foldl_statsStep_losses ps (statsStep acc p)
      (fun q hq => h q (List.mem_cons_of_mem _ hq))
    rw [List.foldl_cons, ih, List.countP_cons]
    simp only [statsStep, if_pos hg, pairProfit]
    by_cases hp : 0 < p.2.price - p.1.price
    · simp only [if_pos hp, decide_eq_true_eq, hp]
      simp
    · simp only [if_neg hp, decide_eq_true_eq]
      simp [hp]
      all_goals omega

/-- `avgWin`'s numerator accumulates the winning profits. -/
theorem foldl_statsStep_winSum :
    ∀ (ps : List (Trade × Trade)) (acc : StatsAcc),
      (∀ p ∈ ps, p.1.action = .buy ∧ p.2.action = .sell) →
      (ps.foldl statsStep acc).winSum =
        acc.winSum + ((ps.filter fun p => decide (0 < pairProfit p)).map pairProfit).sum
  | [], acc, _ => by simp
  | p :: ps, acc, h => by
    have hg := h p (List.mem_cons_self p ps)
    have ih := foldl_statsStep_winSum ps (statsStep acc p)
      (fun q hq => h q (List.mem_cons_of_mem _ hq))
    rw [List.foldl_cons, ih, List.filter_cons]
    simp only [statsStep, if_pos hg, pairProfit]
    by_cases hp : 0 < p.2.price - p.1.price
    · simp only [if_pos hp, decide_eq_true_eq, hp, if_true]
      simp [pairProfit]
      ring
    · simp only [decide_eq_true_eq, hp, if_false, if_neg hp]

/-- `avgLoss`'s numerator accumulates the absolute losing profits. -/
theorem foldl_statsStep_lossSum :
    ∀ (ps : List (Trade × Trade)) (acc : StatsAcc),
      (∀ p ∈ ps, p.1.action = .buy ∧ p.2.action = .sell) →
      (ps.foldl statsStep acc).lossSum =
        acc.lossSum +
          ((ps.filter fun p => !decide (0 < pairProfit p)).map fun p => |pairProfit p|).sum
  | [], acc, _ => by simp
  | p :: ps, acc, h => by
    have hg := h p (List.mem_cons_self p ps)
    have ih := foldl_statsStep_lossSum ps (statsStep acc p)
      (fun q hq => h q (List.mem_cons_of_mem _ hq))
    rw [List.foldl_cons, ih, List.filter_cons]
    simp only [statsStep, if_pos hg, pairProfit]
    by_cases hp : 0 < p.2.price - p.1.price
    · simp only [if_pos hp, decide_eq_true_eq, hp, if_true]
      simp
    · simp only [decide_eq_true_eq, hp, if_false, if_neg hp]
      simp [pairProfit]
      ring

/-- **C8.**  On an alternating trade log starting with BUY,
`calculateStatistics` satisfies: `wins + losses = ⌊trades.length/2⌋`;
`winRate = wins/(wins+losses)*100` (and `0` when there is no completed pair),
always within `[0, 100]`; `avgWin` is `0` when `wins = 0` and otherwise the
mean of the winning pair profits; `avgLoss` is `0` when `losses = 0` and
otherwise the mean absolute losing pair profit. -/
theorem stats_consistency (trades : List Trade)
    (halt : alternatesFrom .buy trades = true) :
    let s := calculateStatistics trades
    s.wins + s.losses = trades.length / 2 ∧
    s.winRate = (if trades.length / 2 = 0 then 0
      else (s.wins : ℚ) / ((s.wins : ℚ) + (s.losses : ℚ)) * 100) ∧
    0 ≤ s.winRate ∧ s.winRate ≤ 100 ∧
    s.avgWin = (if s.wins = 0 then 0
      else (((tradePairs trades).filter fun p => decide (0 < pairProfit p)).map
        pairProfit).sum / (s.wins : ℚ)) ∧
    s.avgLoss = (if s.losses = 0 then 0
      else (((tradePairs trades).filter fun p => !decide (0 < pairProfit p)).map
        fun p => |pairProfit p|).sum / (s.losses : ℚ)) := by
  intro s
  have hpairs := alternates_pairs trades halt
  have hwins := foldl_statsStep_wins (tradePairs trades) ⟨0, 0, 0, 0, 0, 0, 0, 0⟩ hpairs
  have hlosses := foldl_statsStep_losses (tradePairs trades) ⟨0, 0, 0, 0, 0, 0, 0, 0⟩ hpairs
  have hwinSum := foldl_statsStep_winSum (tradePairs trades) ⟨0, 0, 0, 0, 0, 0, 0, 0⟩ hpairs
  have hlossSum := foldl_statsStep_lossSum (tradePairs trades) ⟨0, 0, 0, 0, 0, 0, 0, 0⟩ hpairs
  have hcount : (tradePairs trades).countP (fun p => decide (0 < pairProfit p)) +
      (tradePairs trades).countP (fun p => !decide (0 < pairProfit p)) =
      (tradePairs trades).length := by
    induction tradePairs trades with
    | nil => simp
    | cons p ps ih =>
      simp only [List.countP_cons, List.length_cons]
      by_cases hp : 0 < pairProfit p <;> simp [hp] <;> omega
  have hsw : s.wins = (tradePairs trades).countP (fun p => decide (0 < pairProfit p)) := by
    simpa using hwins
  have hsl : s.losses = (tradePairs trades).countP (fun p => !decide (0 < pairProfit p)) := by
    simpa using hlosses
  have hswl : s.wins + s.losses = trades.length / 2 := by
    rw [hsw, hsl, hcount, tradePairs_length]
  refine ⟨hswl, ?_, ?_, ?_, ?_, ?_⟩
  · show (if 0 < s.wins + s.losses then
        ((s.wins : ℚ) / ((s.wins : ℚ) + (s.losses : ℚ))) * 100 else 0) = _
    rw [hswl]
    rcases Nat.eq_zero_or_pos (trades.length / 2) with hz | hz
    · simp [hz]
    · rw [if_pos hz, if_neg (Nat.pos_iff_ne_zero.mp hz)]
  · show 0 ≤ (if 0 < s.wins + s.losses then
        ((s.wins : ℚ) / ((s.wins : ℚ) + (s.losses : ℚ))) * 100 else 0)
    split
    · positivity
    · exact le_refl 0
  · show (if 0 < s.wins + s.losses then
        ((s.wins : ℚ) / ((s.wins : ℚ) + (s.losses : ℚ))) * 100 else 0) ≤ 100
    split
    next hpos =>
      have hden : (0 : ℚ) < (s.wins : ℚ) + (s.losses : ℚ) := by
        have : (0 : ℚ) < ((s.wins + s.losses : ℕ) : ℚ) := by
          exact_mod_cast Nat.pos_iff_ne_zero.mpr (Nat.pos_iff_ne_zero.mp hpos)
        push_cast at this
        linarith
      have hle : (s.wins : ℚ) ≤ (s.wins : ℚ) + (s.losses : ℚ) := by
        have : (0 : ℚ) ≤ (s.losses : ℚ) := by positivity
        linarith
      have : (s.wins : ℚ) / ((s.wins : ℚ) + (s.losses : ℚ)) ≤ 1 :=
        (div_le_one hden).mpr hle
      linarith
    next => norm_num
  · show (if 0 < s.wins then
        ((tradePairs trades).foldl statsStep ⟨0, 0, 0, 0, 0, 0, 0, 0⟩).winSum / (s.wins : ℚ)
        else 0) = _
    rcases Nat.eq_zero_or_pos s.wins with hz | hz
    · simp [hz]
    · rw [if_pos hz, if_neg (Nat.pos_iff_ne_zero.mp hz), hwinSum]
      norm_num
  · show (if 0 < s.losses then
        ((tradePairs trades).foldl statsStep ⟨0, 0, 0, 0, 0, 0, 0, 0⟩).lossSum / (s.losses : ℚ)
        else 0) = _
    rcases Nat.eq_zero_or_pos s.losses with hz | hz
    · simp [hz]
    · rw [if_pos hz, if_neg (Nat.pos_iff_ne_zero.mp hz), hlossSum]
      norm_num

/-- **C8 (witness).**  The statistics consistency theorem applied to the
concrete three-trade log. -/
theorem stats_consistency_witness :
    let s := calculateStatistics wTrades
    s.wins + s.losses = wTrades.length / 2 ∧
    s.winRate = (if wTrades.length / 2 = 0 then 0
      else (s.wins : ℚ) / ((s.wins : ℚ) + (s.losses : ℚ)) * 100) ∧
    0 ≤ s.winRate ∧ s.winRate ≤ 100 ∧
    s.avgWin = (if s.wins = 0 then 0
      else (((tradePairs wTrades).filter fun p => decide (0 < pairProfit p)).map
        pairProfit).sum / (s.wins : ℚ)) ∧
    s.avgLoss = (if s.losses = 0 then 0
      else (((tradePairs wTrades).filter fun p => !decide (0 < pairProfit p)).map
        fun p => |pairProfit p|).sum / (s.losses : ℚ)) :=
  stats_consistency wTrades (by decide)

/-! ## Start index (C4) -/

/-- Every pushed period is bounded by `Math.max(...periods, 0)`. -/
theorem le_foldr_max : ∀ (l : List ℕ) (p : ℕ), p ∈ l → p ≤ l.foldr max 0
  | a :: l, p, hp => by
    rcases List.mem_cons.mp hp with rfl | hmem
    · exact le_max_left _ _
    · exact le_trans (le_foldr_max l p hmem) (le_max_right _ _)

/-- `Math.max(...periods, 0)` is `0` or one of the periods. -/
theorem foldr_max_mem : ∀ l : List ℕ, l.foldr max 0 = 0 ∨ l.foldr max 0 ∈ l
  | [] => Or.inl rfl
  | a :: l => by
    rcases max_choice a (l.foldr max 0) with h | h
    · exact Or.inr (by rw [List.foldr_cons, h]; exact List.mem_cons_self a l)
    · rcases foldr_max_mem l with h0 | hmem
      · rcases Nat.eq_zero_or_pos a with rfl | ha
        · left; simp [h0]
        · right; rw [List.foldr_cons, h0, Nat.max_zero]; exact List.mem_cons_self a l
      · right; rw [List.foldr_cons, h]; exact List.mem_cons_of_mem a hmem

/-- **C4 (amended).**  The computed start index is the maximum of the periods
pushed for SMA, EMA, RSI and Bollinger requests (`0` when none): it bounds
every such period, is itself `0` or one of them, and is unchanged by deleting
the MACD and volume-SMA requests — they do not contribute.  No trade is ever
emitted at a bar index before the start index. -/
theorem startIndex_ignores_macd_volume (s : Strategy) (data : List Bar)
    (buy sell : ℕ → Bool) :
    (∀ p ∈ startPeriods s, p ≤ getStartIndex s) ∧
    (getStartIndex s = 0 ∨ getStartIndex s ∈ startPeriods s) ∧
    getStartIndex (stripMacdVolume s) = getStartIndex s ∧
    (∀ t ∈ executeTradingLogic data buy sell (getStartIndex s),
      getStartIndex s ≤ t.index) := by
  refine ⟨fun p hp => le_foldr_max _ p hp, foldr_max_mem _, ?_, ?_⟩
  · cases s with
    | mk name ind cond d =>
      cases ind with
      | none => rfl
      | some i => rfl
  · intro t ht
    exact tradingAux_index_ge data buy sell _ _ _ _ t ht

/-- **C4 (counterexample).**  For a MACD-only descriptor the code's start
index is `0`, while the maximum warm-up period across all requested
indicators — the claim's value, including the MACD periods 12/26/9 — is
`26`. -/
theorem startIndex_macd_counterexample :
    getStartIndex macdOnlyStrategy = 0 ∧
    specStartIndex macdOnlyStrategy = 26 ∧
    getStartIndex macdOnlyStrategy ≠ specStartIndex macdOnlyStrategy := by
  refine ⟨rfl, rfl, by decide⟩

/-! ## Validation (C9) -/

/-- `missingFields` is empty exactly when the three required fields are all
truthy. -/
theorem missingFields_eq_nil_iff (s : Strategy) :
    missingFields s = [] ↔
      nameTruthy s.name = true ∧ s.indicators.isSome = true ∧
        s.conditions.isSome = true := by
  unfold missingFields
  split_ifs with h1 h2 h3 <;> simp_all

/-- Success characterization of `validateStrategy`: it returns `true` exactly
when no required field is falsy and both condition slots are truthy. -/
theorem validateStrategy_ok_iff (s : Strategy) :
    validateStrategy s = .ok true ↔
      missingFields s = [] ∧
        ∃ c, s.conditions = some c ∧
          (predTruthy c.buy && predTruthy c.sell) = true := by
  unfold validateStrategy
  split_ifs with h
  · simp only [ne_eq] at h
    simp [h]
  · simp only [ne_eq, not_not] at h
    cases hcond : s.conditions with
    | none => simp [h]
    | some c =>
      show (if (predTruthy c.buy && predTruthy c.sell) = true then Except.ok true
        else Except.error "Strategy must have both buy and sell conditions") =
          Except.ok true ↔ _
      split_ifs with hb
      · simp [h, hb]
        exact Bool.and_eq_true _ _ |>.mp hb
      · simp only [iff_def]
        constructor
        · intro habs; cases habs
        · rintro ⟨-, c', hc', hb'⟩
          cases hc'
          exact absurd hb' hb

/-- **C9 (amended).**  `validateStrategy` accepts (returns `true`) exactly
when `name`, `indicators` and `conditions` are all present *and truthy* (a
present-but-empty `name` string counts as missing, per JS truthiness) and
`conditions` has truthy `buy` and `sell` entries; whenever any required field
is falsy the error message lists exactly the falsy required fields.  The
check never modifies the descriptor (the embedding is a pure function). -/
theorem validateStrategy_truthiness (s : Strategy) :
    (validateStrategy s = .ok true ↔
      (nameTruthy s.name = true ∧ s.indicators.isSome = true ∧
        ∃ c, s.conditions = some c ∧ predTruthy c.buy = true ∧
          predTruthy c.sell = true)) ∧
    (missingFields s ≠ [] →
      validateStrategy s = .error
        ("Missing required fields: " ++ String.intercalate ", " (missingFields s))) := by
  constructor
  · rw [validateStrategy_ok_iff s, missingFields_eq_nil_iff s]
    constructor
    · rintro ⟨⟨hn, hi, -⟩, c, hc, hb⟩
      rcases Bool.and_eq_true _ _ |>.mp hb with ⟨hb1, hb2⟩
      exact ⟨hn, hi, c, hc, hb1, hb2⟩
    · rintro ⟨hn, hi, c, hc, hb1, hb2⟩
      exact ⟨⟨hn, hi, by simp [hc]⟩, c, hc, by simp [hb1, hb2]⟩
  · intro h1
    unfold validateStrategy
    rw [if_pos (by simpa using h1)]

/-- **C9 (counterexample).**  `validateStrategy` rejects a descriptor none of
whose required fields is missing: a present-but-empty `name` is falsy, so the
check reports it as a missing field instead of accepting the descriptor. -/
theorem validate_rejects_present_empty_name :
    validateStrategy emptyNameStrategy = .error "Missing required fields: name" ∧
    emptyNameStrategy.name.isSome = true ∧
    emptyNameStrategy.indicators.isSome = true ∧
    (∃ c, emptyNameStrategy.conditions = some c ∧ c.buy.isSome = true ∧
      c.sell.isSome = true) ∧
    validateStrategy emptyNameStrategy ≠ .ok true := by
  refine ⟨rfl, rfl, rfl, ⟨_, rfl, rfl, rfl⟩, fun hcontra => ?_⟩
  rw [show validateStrategy emptyNameStrategy =
    .error "Missing required fields: name" from rfl] at hcontra
  exact Except.noConfusion hcontra

/-! ## Empty bar series (C10) -/

/-- On an empty series the first `calculateEMA` call of the `ema.forEach`
loop throws. -/
theorem emaEntries_nil_error (p : ℕ) (ps : List ℕ) :
    emaEntries [] (p :: ps) = .error typeErrorMsg := by
  simp [emaEntries, calculateEMA, bind, Except.bind]

/-- On an empty series `calculateMACD` throws from its first EMA. -/
theorem calculateMACD_nil_error (f sl sg : ℕ) :
    calculateMACD [] f sl sg = .error typeErrorMsg := by
  simp [calculateMACD, calculateEMA, bind, Except.bind]

/-- On an empty series, indicator calculation throws the EMA `TypeError`
exactly when an EMA or MACD indicator is requested. -/
theorem calculateIndicators_nil_error (s : Strategy)
    (h : requestsEmaOrMacd s = true) :
    calculateIndicators s [] = .error typeErrorMsg := by
  cases hind : s.indicators with
  | none => simp [requestsEmaOrMacd, hind] at h
  | some i =>
    simp only [requestsEmaOrMacd, hind] at h
    cases hema : i.ema.getD [] with
    | cons p ps =>
      simp [calculateIndicators, hind, hema, emaEntries_nil_error, bind, Except.bind]
    | nil =>
      rw [hema] at h
      simp only [List.isEmpty_nil, Bool.not_true, Bool.false_or] at h
      cases hmacd : i.macd with
      | none => rw [hmacd] at h; cases h
      | some cfg =>
        simp [calculateIndicators, hind, hema, hmacd, emaEntries,
          calculateMACD_nil_error, bind, Except.bind]

/-- On an empty series, indicator calculation succeeds when no EMA or MACD is
requested. -/
theorem calculateIndicators_nil_ok (s : Strategy)
    (h : requestsEmaOrMacd s = false) :
    (calculateIndicators s []).isOk = true := by
  cases hind : s.indicators with
  | none => simp [calculateIndicators, hind, bind, Except.bind, pure, Except.pure, Except.isOk, Except.toBool]
  | some i =>
    simp only [requestsEmaOrMacd, hind] at h
    cases hema : i.ema.getD [] with
    | cons p ps => rw [hema] at h; simp at h
    | nil =>
      rw [hema] at h
      simp only [List.isEmpty_nil, Bool.not_true, Bool.false_or] at h
      cases hmacd : i.macd with
      | some cfg => rw [hmacd] at h; simp at h
      | none =>
        simp [calculateIndicators, hind, hema, hmacd, emaEntries, bind,
          Except.bind, pure, Except.pure, Except.isOk, Except.toBool]

/-- The simulation loop over an empty series emits no trades. -/
theorem executeTradingLogic_nil (buy sell : ℕ → Bool) (startIndex : ℕ) :
    executeTradingLogic [] buy sell startIndex = [] := by
  simp [executeTradingLogic, tradingAux]

/-- **C10.**  Running a strategy whose `data` is absent or empty: if the
descriptor requests an EMA or MACD indicator, `executeStrategy` propagates the
`TypeError` thrown by `calculateEMA` reading the first bar's close; with only
SMA/RSI/Bollinger/volume indicators the run returns normally with an empty
trade log and zeroed statistics. -/
theorem executeStrategy_empty_data (s : Strategy) (buy sell : ℕ → Bool)
    (hdata : s.data.getD [] = []) :
    (requestsEmaOrMacd s = true →
      executeStrategy s buy sell = .error typeErrorMsg) ∧
    (requestsEmaOrMacd s = false →
      ∃ r, executeStrategy s buy sell = .ok r ∧ r.trades = [] ∧
        r.stats = ⟨0, 0, 0, 0, 0, 0, 0, 0, 0, 0, 0⟩) := by
  constructor
  · intro h
    have he := calculateIndicators_nil_error s h
    simp [executeStrategy, hdata, he, bind, Except.bind]
  · intro h
    have hok := calculateIndicators_nil_ok s h
    cases hv : calculateIndicators s [] with
    | error e =>
      rw [hv] at hok
      simp [Except.isOk, Except.toBool] at hok
    | ok v =>
      refine ⟨⟨[], ⟨0, 0, 0, 0, 0, 0, 0, 0, 0, 0, 0⟩,
        match s.name with
        | none => "Custom Strategy"
        | some n => if n = "" then "Custom Strategy" else n⟩, ?_, rfl, rfl⟩
      have ht := executeTradingLogic_nil buy sell (getStartIndex s)
      simp only [executeStrategy, hdata, hv, bind, Except.bind, ht]
      rfl

/-- **C10 (witness).**  Concrete empty-data runs: the EMA request throws, the
SMA+RSI request returns an empty report. -/
theorem executeStrategy_empty_data_witness :
    executeStrategy emaOnlyStrategy (fun _ => false) (fun _ => false) =
      .error typeErrorMsg ∧
    ∃ r, executeStrategy smaRsiStrategy (fun _ => false) (fun _ => false) =
      .ok r ∧ r.trades = [] ∧ r.stats = ⟨0, 0, 0, 0, 0, 0, 0, 0, 0, 0, 0⟩ :=
  ⟨(executeStrategy_empty_data emaOnlyStrategy _ _ rfl).1 rfl,
   (executeStrategy_empty_data smaRsiStrategy _ _ rfl).2 rfl⟩

end Backtest
